import Mathlib

/-!
Verification of the Datara file-browser core (`src/main.rs`).

Shallow embedding conventions:
* `PathBuf` is modelled as a list of path components; `PathBuf::parent` drops
  the last component and the empty path has no parent.
* `std::fs::read_dir` and per-entry `metadata()` are external collaborators,
  modelled by an `Fs` oracle mapping a path to `none` (directory unreadable)
  or the raw list of children, each with an optional metadata record
  (`none` = per-entry metadata failure).
* Rust strings are modelled as `List Char` (names are taken to be valid UTF-8,
  so the `to_str()` check in the hidden filter always succeeds);
  `str::to_lowercase` is modelled per-character by `Char.toLower` and string
  comparison is code-point lexicographic, as in Rust.
* `f32` values are modelled as exact rationals (`ℚ`): arithmetic is exact,
  `x as usize` becomes `⌊x⌋.toNat` (truncation toward zero saturating at 0;
  for the values reached here the 64-bit upper saturation is irrelevant),
  and `%` on floats keeps the sign of the dividend (`floatRem`).
* Fallible slicing (`chars[i..j]`, which panics out of bounds in Rust) is
  modelled with `Option`: `none` models a panic / out-of-bounds access.
* `Vec::push`/`Vec::pop` on the history stacks act on one end; the stacks are
  modelled as lists with the stack top at the head.
* GUI-only fields (`folder_icon`, `file_icon`: texture handles) are omitted;
  they are never touched by the navigation, scanning, settings or marquee
  logic under verification.
-/

/-- A filesystem path (`PathBuf`), as its list of components. -/
abbrev PathBuf : Type := List String

/-- `PathBuf::parent`: drop the last component; the empty path has no parent. -/
def PathBuf.parent (p : PathBuf) : Option PathBuf :=
  match p with
  | [] => none
  | _ => some p.dropLast

/-- The slice of `std::fs::Metadata` the program consults. -/
structure Metadata where
  isDir : Bool
deriving DecidableEq

/-- One raw child produced by `read_dir`: its file name and the result of
`entry.metadata()` (`none` models a failed metadata read). -/
structure RawEntry where
  name : List Char
  meta : Option Metadata
deriving DecidableEq

/-- The filesystem oracle: `std::fs::read_dir(path)`, with `none` modelling
`Err` (directory unreadable) and `some` the raw unfiltered, unsorted
children. -/
abbrev Fs : Type := PathBuf → Option (List RawEntry)

/-- The `DataraApp` state (struct fields of `src/main.rs`, lines 6-24, minus
the two GUI texture handles). -/
structure DataraApp where
  current_dir : PathBuf
  entries : List RawEntry
  history : List PathBuf
  future : List PathBuf
  grid_view : Bool
  error : Option String
  ui_scale : ℚ
  max_items_per_row : ℤ
  show_scanlines : Bool
  show_hidden : Bool
  last_hovered_item : Option ℕ
  scrolling_text : Option (ℕ × ℚ)
  horizontal_spacing : ℚ
  vertical_spacing : ℚ
  show_settings : Bool
deriving DecidableEq

/-- `name.starts_with('.')`. -/
def startsWithDot (name : List Char) : Bool :=
  match name with
  | '.' :: _ => true
  | _ => false

/-- `metadata.map(|m| m.is_dir()).unwrap_or(false)`: a metadata failure counts
as a file. -/
def entryIsDir (e : RawEntry) : Bool :=
  match e.meta with
  | some m => m.isDir
  | none => false

/-- `to_string_lossy().to_lowercase()` on a file name. -/
def lowerName (name : List Char) : List Char :=
  name.map Char.toLower

/-- Comparison of two characters (Rust `char`/byte ordering). -/
def cmpChar (a b : Char) : Ordering :=
  if a < b then .lt else if b < a then .gt else .eq

/-- Lexicographic comparison of strings, as Rust `str::cmp`. -/
def cmpChars : List Char → List Char → Ordering
  | [], [] => .eq
  | [], _ :: _ => .lt
  | _ :: _, [] => .gt
  | a :: as', b :: bs' =>
    match cmpChar a b with
    | .eq => cmpChars as' bs'
    | o => o

/-- The comparator of `read_dir`'s `sort_by` (lines 66-76): directories first,
then case-insensitive name order. -/
def cmpEntry (a b : RawEntry) : Ordering :=
  match entryIsDir a, entryIsDir b with
  | true, false => .lt
  | false, true => .gt
  | _, _ => cmpChars (lowerName a.name) (lowerName b.name)

/-- The boolean order backing the stable sort: `cmpEntry a b ≠ Greater`. -/
def leEntry (a b : RawEntry) : Bool :=
  !(cmpEntry a b == Ordering.gt)

/-- The hidden-entry filter of the `read_dir` loop (lines 57-64): an entry is
kept iff `show_hidden` is set or its name does not start with `.`. -/
def visibleEntries (showHidden : Bool) (raw : List RawEntry) : List RawEntry :=
  raw.filter (fun e => showHidden || !startsWithDot e.name)

/-- `Vec::sort_by` with the entry comparator; Rust's sort is stable, which a
merge sort models exactly. -/
def sortEntries (l : List RawEntry) : List RawEntry :=
  l.mergeSort leEntry

/-- `DataraApp::read_dir` (lines 52-82): clear the listing, rescan the current
directory, filter and sort on success, or record the error on failure. -/
def read_dir (fs : Fs) (s : DataraApp) : DataraApp :=
  match fs s.current_dir with
  | some raw =>
    { s with entries := sortEntries (visibleEntries s.show_hidden raw), error := none }
  | none =>
    { s with entries := [], error := some "Failed to read dir" }

/-- `DataraApp::navigate_to` (lines 84-91). -/
def navigate_to (fs : Fs) (path : PathBuf) (push_history : Bool) (s : DataraApp) : DataraApp :=
  let s :=
    if push_history then
      { s with history := s.current_dir :: s.history, future := [] }
    else s
  read_dir fs { s with current_dir := path }

/-- `DataraApp::navigate_up` (lines 93-97). -/
def navigate_up (fs : Fs) (s : DataraApp) : DataraApp :=
  match s.current_dir.parent with
  | some p => navigate_to fs p true s
  | none => s

/-- `DataraApp::navigate_back` (lines 99-105). -/
def navigate_back (fs : Fs) (s : DataraApp) : DataraApp :=
  match s.history with
  | [] => s
  | prev :: rest =>
    read_dir fs
      { s with history := rest, future := s.current_dir :: s.future, current_dir := prev }

/-- `DataraApp::navigate_forward` (lines 107-113). -/
def navigate_forward (fs : Fs) (s : DataraApp) : DataraApp :=
  match s.future with
  | [] => s
  | next :: rest =>
    read_dir fs
      { s with future := rest, history := s.current_dir :: s.history, current_dir := next }

/-- The persisted display preferences (spec §3 `DisplayConfig`). -/
structure DisplayConfig where
  ui_scale : ℚ
  max_items_per_row : ℤ
  show_scanlines : Bool
  show_hidden : Bool
  horizontal_spacing : ℚ
  vertical_spacing : ℚ
deriving DecidableEq

/-- The six persisted config fields of an app state. -/
def configOf (s : DataraApp) : DisplayConfig :=
  ⟨s.ui_scale, s.max_items_per_row, s.show_scanlines, s.show_hidden,
    s.horizontal_spacing, s.vertical_spacing⟩

/-- Split a char list at every occurrence of `sep` (models `str::lines` for
`sep = '\n'`; the possible trailing empty piece is skipped by the key=value
parse below, as in the source). -/
def splitOnChar (sep : Char) : List Char → List (List Char)
  | [] => [[]]
  | c :: rest =>
    if c = sep then [] :: splitOnChar sep rest
    else
      match splitOnChar sep rest with
      | [] => [[c]]
      | cur :: others => (c :: cur) :: others

/-- `str::split_once(sep)`: split at the first occurrence of `sep`. -/
def splitFirst (sep : Char) : List Char → Option (List Char × List Char)
  | [] => none
  | c :: rest =>
    if c = sep then some ([], rest)
    else (splitFirst sep rest).map (fun p => (c :: p.1, p.2))

/-- Decimal digit run parser underlying Rust's integer `FromStr`. -/
def parseDigits (s : List Char) : Option ℕ :=
  if s = [] then none
  else if s.all Char.isDigit then
    some (s.foldl (fun acc c => 10 * acc + (c.toNat - 48)) 0)
  else none

/-- `value.parse::<i32>()`: optional sign, decimal digits, overflow-checked. -/
def parseI32 (s : List Char) : Option ℤ :=
  match s with
  | '-' :: rest =>
    (parseDigits rest).bind fun n => if n ≤ 2147483648 then some (-(n : ℤ)) else none
  | '+' :: rest =>
    (parseDigits rest).bind fun n => if n ≤ 2147483647 then some (n : ℤ) else none
  | _ =>
    (parseDigits s).bind fun n => if n ≤ 2147483647 then some (n : ℤ) else none

/-- `value.parse::<bool>()`: exactly `true` or `false`. -/
def parseBool (s : List Char) : Option Bool :=
  if s = "true".data then some true
  else if s = "false".data then some false
  else none

/-- `Display` for `bool`. -/
def boolChars (b : Bool) : List Char :=
  if b then "true".data else "false".data

/-- `Display` for `i32`: decimal digits with an optional leading minus. -/
def intChars (z : ℤ) : List Char :=
  if z < 0 then '-' :: Nat.toDigits 10 z.natAbs else Nat.toDigits 10 z.natAbs

/-- `DataraApp::save_settings` (lines 314-320): the exact text written to
`datara_settings.txt`. The rendering of `f32` values (Rust `Display`) is an
external codec, passed in as `fmt`. -/
def save_settings (fmt : ℚ → List Char) (s : DataraApp) : List Char :=
  "ui_scale".data ++ '=' :: fmt s.ui_scale ++ '\n' ::
  ("max_items_per_row".data ++ '=' :: intChars s.max_items_per_row ++ '\n' ::
  ("show_scanlines".data ++ '=' :: boolChars s.show_scanlines ++ '\n' ::
  ("show_hidden".data ++ '=' :: boolChars s.show_hidden ++ '\n' ::
  ("horizontal_spacing".data ++ '=' :: fmt s.horizontal_spacing ++ '\n' ::
  ("vertical_spacing".data ++ '=' :: fmt s.vertical_spacing ++ ['\n'])))))

/-- One iteration of the `load_settings` line loop (lines 324-336); `prs`
models `value.parse::<f32>()`. -/
def applyLine (prs : List Char → Option ℚ) (s : DataraApp) (line : List Char) : DataraApp :=
  match splitFirst '=' line with
  | none => s
  | some (key, value) =>
    if key = "ui_scale".data then
      match prs value with
      | some v => { s with ui_scale := v }
      | none => s
    else if key = "max_items_per_row".data then
      match parseI32 value with
      | some v => { s with max_items_per_row := min 5 (max 2 v) }
      | none => s
    else if key = "show_scanlines".data then
      match parseBool value with
      | some v => { s with show_scanlines := v }
      | none => s
    else if key = "show_hidden".data then
      match parseBool value with
      | some v => { s with show_hidden := v }
      | none => s
    else if key = "horizontal_spacing".data then
      match prs value with
      | some v => { s with horizontal_spacing := v }
      | none => s
    else if key = "vertical_spacing".data then
      match prs value with
      | some v => { s with vertical_spacing := v }
      | none => s
    else s

/-- `DataraApp::load_settings` (lines 322-338): best effort; `none` for the
file models a failed `read_to_string`. -/
def load_settings (prs : List Char → Option ℚ) (file : Option (List Char))
    (s : DataraApp) : DataraApp :=
  match file with
  | some contents => (splitOnChar '\n' contents).foldl (applyLine prs) s
  | none => s

/-- The struct literal of `DataraApp::new` (lines 28-46): the defaults an app
starts from before its first scan and settings load. -/
def initApp (start_dir : PathBuf) : DataraApp where
  current_dir := start_dir
  entries := []
  history := []
  future := []
  grid_view := true
  error := none
  ui_scale := 1
  max_items_per_row := 3
  show_scanlines := false
  show_hidden := false
  last_hovered_item := none
  scrolling_text := none
  horizontal_spacing := 16
  vertical_spacing := 12
  show_settings := false

/-- `DataraApp::new` (lines 27-50): build the defaults, then `read_dir()`,
then `load_settings()` - in that order. -/
def DataraApp.new (fs : Fs) (prs : List Char → Option ℚ) (file : Option (List Char))
    (start_dir : PathBuf) : DataraApp :=
  load_settings prs file (read_dir fs (initApp start_dir))

/-- Rust `x as usize` on a float: truncate toward zero, saturating at 0 for
negative values (`⌊q⌋.toNat` agrees with that on all of ℚ). -/
def castUsize (q : ℚ) : ℕ :=
  (⌊q⌋).toNat

/-- Truncation toward zero, for the float `%` model. -/
def ratTrunc (q : ℚ) : ℤ :=
  if 0 ≤ q then ⌊q⌋ else ⌈q⌉

/-- Rust `%` on floats: remainder with the sign of the dividend. -/
def floatRem (a b : ℚ) : ℚ :=
  a - b * (ratTrunc (a / b) : ℚ)

/-- `DataraApp::truncate_text` (lines 249-264). The result is `none` exactly
when the `chars[..truncate_at]` slice would panic (it never does; see the
marquee safety theorem). -/
def truncate_text (text : List Char) (max_width font_size : ℚ) : Option (List Char) :=
  let char_width := font_size * (3 / 5)
  let max_chars := castUsize (max_width / char_width)
  if text.length ≤ max_chars then some text
  else
    let truncate_at := max_chars - 3
    if truncate_at ≤ text.length then some (text.take truncate_at ++ "...".data)
    else none

/-- `DataraApp::get_scrolling_text` (lines 266-312). A `none` result models a
panicking (out-of-bounds) slice; `chars[a..b]` is `(drop a).take (b - a)` and
the wrap-around branch concatenates the tail `chars[start_char..]` with the
head `chars[..remaining]`. -/
def get_scrolling_text (text : List Char) (max_width font_size : ℚ)
    (_item_index : ℕ) (is_hovered : Bool) (time : ℚ) : Option (List Char × ℚ) :=
  let char_width := font_size * (3 / 5)
  let max_chars := castUsize (max_width / char_width)
  if text.length ≤ max_chars then some (text, 0)
  else if is_hovered then
    let total_text_width := (text.length : ℚ) * char_width
    let visible_width := (max_chars : ℚ) * char_width
    let scroll_range := total_text_width - visible_width
    let cycle_time : ℚ := 4
    let normalized_time := floatRem time cycle_time / cycle_time
    let scroll_offset :=
      if normalized_time < 1 / 2 then normalized_time * 2 * scroll_range
      else (1 - (normalized_time - 1 / 2) * 2) * scroll_range
    let start_char := castUsize (scroll_offset / char_width)
    let visible_chars := max_chars
    if start_char + visible_chars ≤ text.length then
      some ((text.drop start_char).take visible_chars, 0)
    else if start_char ≤ text.length then
      let remaining := visible_chars - (text.length - start_char)
      if remaining ≤ text.length then
        some (text.drop start_char ++ text.take remaining, 0)
      else none
    else none
  else
    (truncate_text text max_width font_size).map (fun t => (t, 0))

/-! ## Helper lemmas -/

/-- `read_dir` rescans the listing and error field but never moves the
location or touches the history stacks or display settings. -/
theorem read_dir_frame (fs : Fs) (s : DataraApp) :
    (read_dir fs s).current_dir = s.current_dir
    ∧ (read_dir fs s).history = s.history
    ∧ (read_dir fs s).future = s.future
    ∧ configOf (read_dir fs s) = configOf s
    ∧ (read_dir fs s).grid_view = s.grid_view
    ∧ (read_dir fs s).show_settings = s.show_settings
    ∧ (read_dir fs s).last_hovered_item = s.last_hovered_item
    ∧ (read_dir fs s).scrolling_text = s.scrolling_text := by
  unfold read_dir
  cases fs s.current_dir <;> simp [configOf]

/-- The fields a navigation call may not touch: the six persisted display
settings plus the remaining view/hover state. -/
def frameFields (s : DataraApp) :
    DisplayConfig × Bool × Bool × Option ℕ × Option (ℕ × ℚ) :=
  (configOf s, s.grid_view, s.show_settings, s.last_hovered_item, s.scrolling_text)

/-- C10: every navigation operation mutates only the location, the two history
stacks, the listing and the last-error field; the six `DisplayConfig` fields
(and the other view state) are left unchanged. -/
theorem navigation_frame (fs : Fs) (p : PathBuf) (b : Bool) (s : DataraApp) :
    frameFields (navigate_to fs p b s) = frameFields s
    ∧ frameFields (navigate_up fs s) = frameFields s
    ∧ frameFields (navigate_back fs s) = frameFields s
    ∧ frameFields (navigate_forward fs s) = frameFields s := by
  refine ⟨?_, ?_, ?_, ?_⟩
  · unfold navigate_to read_dir
    cases b <;> simp <;> split <;> simp [frameFields, configOf]
  · unfold navigate_up
    cases h : s.current_dir.parent
    · rfl
    · unfold navigate_to read_dir
      simp only []
      split <;> simp [frameFields, configOf]
  · unfold navigate_back read_dir
    cases s.history <;> simp [] <;> split <;> simp [frameFields, configOf]
  · unfold navigate_forward read_dir
    cases s.future <;> simp [] <;> split <;> simp [frameFields, configOf]

/-- C3: a recorded `navigate_to` always leaves the forward stack empty; an
unrecorded one leaves it untouched; `navigate_back` is the only operation that
pushes onto it (one element, the departed location); `navigate_forward` only
pops it; `navigate_up` behaves as a recorded `navigate_to` when a parent
exists and is a no-op otherwise.  Together these cover every mutator of the
engine state, so in every reachable state the forward stack is governed
exactly by this discipline. -/
theorem forward_stack_discipline (fs : Fs) (p : PathBuf) (s : DataraApp) :
    (navigate_to fs p true s).future = []
    ∧ (navigate_to fs p false s).future = s.future
    ∧ (navigate_back fs s).future =
        (match s.history with
          | [] => s.future
          | _ :: _ => s.current_dir :: s.future)
    ∧ (navigate_forward fs s).future = s.future.tail
    ∧ (navigate_up fs s).future =
        (match s.current_dir.parent with
          | some _ => []
          | none => s.future) := by
  refine ⟨?_, ?_, ?_, ?_, ?_⟩
  · unfold navigate_to read_dir
    simp only []
    split <;> rfl
  · unfold navigate_to read_dir
    simp only []
    split <;> rfl
  · unfold navigate_back read_dir
    cases s.history <;> simp only [] <;> split <;> rfl
  · unfold navigate_forward read_dir
    cases h : s.future
    · simp [h]
    · simp only [h, List.tail_cons]
      split <;> rfl
  · unfold navigate_up
    cases h : s.current_dir.parent
    · simp
    · unfold navigate_to read_dir
      simp only []
      split <;> rfl

/-- A filesystem in which `["a"]` is an empty readable directory and every
other path (in particular `["b"]`) fails to scan. -/
def failFs : Fs := fun p => if p = ["a"] then some [] else none

/-- C1 counterexample: starting at `["a"]` with empty stacks, a recorded
`navigate_to` to the unreadable path `["b"]` is NOT rolled back - the
location moves to `["b"]` (whose scan failed), the old location is pushed
onto the back stack, and the error field is set. -/
theorem navigate_to_no_rollback_cex :
    failFs ["b"] = none
    ∧ (navigate_to failFs ["b"] true (initApp ["a"])).current_dir = ["b"]
    ∧ (initApp ["a"]).current_dir = ["a"]
    ∧ (navigate_to failFs ["b"] true (initApp ["a"])).history = [["a"]]
    ∧ (initApp ["a"]).history = []
    ∧ (navigate_to failFs ["b"] true (initApp ["a"])).error.isSome = true
    ∧ (initApp ["a"]).error.isSome = false := by
  refine ⟨rfl, ?_, rfl, ?_, rfl, ?_, rfl⟩ <;> rfl

/-- C1 (amended): when the scan of the destination fails during
`navigate_to(path, true)`, nothing is rolled back: the location commits to
the failed path, the previous location is still pushed onto the back stack,
the forward stack is still cleared, and the listing is emptied with the
error recorded - the browser is left pointed at a location whose listing
failed. -/
theorem navigate_to_failed_scan (fs : Fs) (path : PathBuf) (s : DataraApp)
    (h : fs path = none) :
    (navigate_to fs path true s).current_dir = path
    ∧ (navigate_to fs path true s).history = s.current_dir :: s.history
    ∧ (navigate_to fs path true s).future = []
    ∧ (navigate_to fs path true s).entries = []
    ∧ (navigate_to fs path true s).error = some "Failed to read dir" := by
  unfold navigate_to read_dir
  simp [h]

/-- Witness for the amended C1 theorem at a concrete failing scan. -/
theorem navigate_to_failed_scan_witness :
    (navigate_to failFs ["b"] true (initApp ["a"])).current_dir = ["b"]
    ∧ (navigate_to failFs ["b"] true (initApp ["a"])).history =
        (initApp ["a"]).current_dir :: (initApp ["a"]).history
    ∧ (navigate_to failFs ["b"] true (initApp ["a"])).future = []
    ∧ (navigate_to failFs ["b"] true (initApp ["a"])).entries = []
    ∧ (navigate_to failFs ["b"] true (initApp ["a"])).error = some "Failed to read dir" :=
  navigate_to_failed_scan failFs ["b"] (initApp ["a"]) rfl

/-- The navigation core of an app state: location, back stack, forward
stack. -/
def navState (s : DataraApp) : PathBuf × List PathBuf × List PathBuf :=
  (s.current_dir, s.history, s.future)

/-- The effect of `navigate_back` on the navigation core. -/
def backStep : PathBuf × List PathBuf × List PathBuf → PathBuf × List PathBuf × List PathBuf
  | (cur, [], fut) => (cur, [], fut)
  | (cur, prev :: rest, fut) => (prev, rest, cur :: fut)

/-- The effect of `navigate_forward` on the navigation core. -/
def forwardStep : PathBuf × List PathBuf × List PathBuf → PathBuf × List PathBuf × List PathBuf
  | (cur, hist, []) => (cur, hist, [])
  | (cur, hist, next :: rest) => (next, cur :: hist, rest)

theorem navState_navigate_back (fs : Fs) (s : DataraApp) :
    navState (navigate_back fs s) = backStep (navState s) := by
  unfold navigate_back read_dir backStep navState
  cases h : s.history <;> simp [h] <;> split <;> simp

theorem navState_navigate_forward (fs : Fs) (s : DataraApp) :
    navState (navigate_forward fs s) = forwardStep (navState s) := by
  unfold navigate_forward read_dir forwardStep navState
  cases h : s.future <;> simp [h] <;> split <;> simp

theorem navState_back_iterate (fs : Fs) (k : ℕ) (s : DataraApp) :
    navState ((navigate_back fs)^[k] s) = backStep^[k] (navState s) := by
  induction k generalizing s with
  | zero => rfl
  | succ n ih =>
    rw [Function.iterate_succ_apply, Function.iterate_succ_apply, ih,
      navState_navigate_back]

theorem navState_forward_iterate (fs : Fs) (k : ℕ) (s : DataraApp) :
    navState ((navigate_forward fs)^[k] s) = forwardStep^[k] (navState s) := by
  induction k generalizing s with
  | zero => rfl
  | succ n ih =>
    rw [Function.iterate_succ_apply, Function.iterate_succ_apply, ih,
      navState_navigate_forward]

theorem forwardStep_backStep (x : PathBuf × List PathBuf × List PathBuf)
    (h : x.2.1 ≠ []) : forwardStep (backStep x) = x := by
  obtain ⟨cur, hist, fut⟩ := x
  cases hist with
  | nil => exact absurd rfl h
  | cons a t => rfl

theorem forward_back_iterate (k : ℕ) (x : PathBuf × List PathBuf × List PathBuf)
    (h : k ≤ x.2.1.length) : forwardStep^[k] (backStep^[k] x) = x := by
  induction k generalizing x with
  | zero => rfl
  | succ n ih =>
    obtain ⟨cur, hist, fut⟩ := x
    cases hist with
    | nil => simp at h
    | cons a t =>
      rw [Function.iterate_succ_apply' forwardStep n,
        Function.iterate_succ_apply backStep n]
      have hb : backStep (cur, a :: t, fut) = (a, t, cur :: fut) := rfl
      rw [hb, ih (a, t, cur :: fut) (by simpa using Nat.le_of_succ_le_succ h)]
      rfl

/-- C2: from any engine state, `k` `navigate_back` calls followed by `k`
`navigate_forward` calls (with `k` at most the back-stack depth) restore the
location and both stacks exactly - in particular the location equals the one
held just before the backs began and both stacks regain their depths. -/
theorem history_symmetry (fs : Fs) (s : DataraApp) (k : ℕ)
    (h : k ≤ s.history.length) :
    ((navigate_forward fs)^[k] ((navigate_back fs)^[k] s)).current_dir = s.current_dir
    ∧ ((navigate_forward fs)^[k] ((navigate_back fs)^[k] s)).history = s.history
    ∧ ((navigate_forward fs)^[k] ((navigate_back fs)^[k] s)).future = s.future := by
  have key : navState ((navigate_forward fs)^[k] ((navigate_back fs)^[k] s)) = navState s := by
    rw [navState_forward_iterate, navState_back_iterate]
    exact forward_back_iterate k (navState s) h
  have h1 := congrArg Prod.fst key
  have h2 := congrArg (fun p => p.2.1) key
  have h3 := congrArg (fun p => p.2.2) key
  exact ⟨h1, h2, h3⟩

/-- Witness for C2 at a back-stack of depth one. -/
theorem history_symmetry_witness :
    ((navigate_forward failFs)^[1] ((navigate_back failFs)^[1]
        { initApp ["a"] with history := [["h"]] })).current_dir =
      ({ initApp ["a"] with history := [["h"]] } : DataraApp).current_dir
    ∧ ((navigate_forward failFs)^[1] ((navigate_back failFs)^[1]
        { initApp ["a"] with history := [["h"]] })).history =
      ({ initApp ["a"] with history := [["h"]] } : DataraApp).history
    ∧ ((navigate_forward failFs)^[1] ((navigate_back failFs)^[1]
        { initApp ["a"] with history := [["h"]] })).future =
      ({ initApp ["a"] with history := [["h"]] } : DataraApp).future :=
  history_symmetry failFs { initApp ["a"] with history := [["h"]] } 1 (by decide)

theorem cmpChar_swap (a b : Char) : cmpChar b a = (cmpChar a b).swap := by
  rcases lt_trichotomy a b with h | h | h
  · simp [cmpChar, h, lt_asymm h, Ordering.swap]
  · simp [cmpChar, h, lt_irrefl, Ordering.swap]
  · simp [cmpChar, h, lt_asymm h, Ordering.swap]

theorem cmpChars_swap : ∀ (x y : List Char), cmpChars y x = (cmpChars x y).swap
  | [], [] => rfl
  | [], _ :: _ => rfl
  | _ :: _, [] => rfl
  | a :: as', b :: bs' => by
    show (match cmpChar b a with
      | Ordering.eq => cmpChars bs' as'
      | o => o) =
      (match cmpChar a b with
        | Ordering.eq => cmpChars as' bs'
        | o => o).swap
    rw [cmpChar_swap a b, cmpChars_swap as' bs']
    cases cmpChar a b <;> rfl

theorem cmpChar_eq_iff (a b : Char) : cmpChar a b = Ordering.eq ↔ a = b := by
  unfold cmpChar
  rcases lt_trichotomy a b with h | h | h
  · simp [h, h.ne]
  · simp [h, lt_irrefl]
  · simp [lt_asymm h, h, (h.ne).symm]

theorem cmpChar_lt_iff (a b : Char) : cmpChar a b = Ordering.lt ↔ a < b := by
  unfold cmpChar
  rcases lt_trichotomy a b with h | h | h
  · simp [h]
  · simp [h, lt_irrefl]
  · simp [lt_asymm h, h]

theorem cmpChars_nil_not_gt (z : List Char) : cmpChars [] z ≠ Ordering.gt := by
  cases z <;> simp [cmpChars]

theorem cmpChars_le_trans :
    ∀ (x y z : List Char), cmpChars x y ≠ Ordering.gt → cmpChars y z ≠ Ordering.gt →
      cmpChars x z ≠ Ordering.gt
  | [], _, z, _, _ => cmpChars_nil_not_gt z
  | _ :: _, [], _, h1, _ => absurd rfl h1
  | _ :: _, _ :: _, [], _, h2 => absurd rfl h2
  | a :: as', b :: bs', c :: cs', h1, h2 => by
    show (match cmpChar a c with
      | Ordering.eq => cmpChars as' cs'
      | o => o) ≠ Ordering.gt
    have h1' : (match cmpChar a b with
        | Ordering.eq => cmpChars as' bs'
        | o => o) ≠ Ordering.gt := h1
    have h2' : (match cmpChar b c with
        | Ordering.eq => cmpChars bs' cs'
        | o => o) ≠ Ordering.gt := h2
    rcases hab : cmpChar a b with _ | _ | _ <;> rw [hab] at h1'
    · -- a < b
      rcases hbc : cmpChar b c with _ | _ | _ <;> rw [hbc] at h2'
      · have hac : a < c := lt_trans ((cmpChar_lt_iff a b).mp hab) ((cmpChar_lt_iff b c).mp hbc)
        rw [(cmpChar_lt_iff a c).mpr hac]
        simp
      · have hac : a < c := ((cmpChar_eq_iff b c).mp hbc) ▸ (cmpChar_lt_iff a b).mp hab
        rw [(cmpChar_lt_iff a c).mpr hac]
        simp
      · exact absurd rfl h2'
    · have hbc' := h2'
      have hab' : a = b := (cmpChar_eq_iff a b).mp hab
      rcases hbc : cmpChar b c with _ | _ | _ <;> rw [hbc] at h2'
      · rw [(cmpChar_lt_iff a c).mpr (hab' ▸ (cmpChar_lt_iff b c).mp hbc)]
        simp
      · have hac : a = c := hab'.trans ((cmpChar_eq_iff b c).mp hbc)
        rw [(cmpChar_eq_iff a c).mpr hac]
        exact cmpChars_le_trans as' bs' cs' h1' h2'
      · exact absurd rfl h2'
    · exact absurd rfl h1'

theorem bne_gt_iff (o : Ordering) : (!(o == Ordering.gt)) = true ↔ o ≠ Ordering.gt := by
  rcases o <;> decide

theorem leEntry_trans (a b c : RawEntry)
    (h1 : leEntry a b = true) (h2 : leEntry b c = true) : leEntry a c = true := by
  unfold leEntry at h1 h2 ⊢
  rw [bne_gt_iff] at h1 h2 ⊢
  unfold cmpEntry at h1 h2 ⊢
  cases da : entryIsDir a <;> cases db : entryIsDir b <;> cases dc : entryIsDir c <;>
    rw [da, db] at h1 <;> rw [db, dc] at h2 <;>
    first
      | exact cmpChars_le_trans _ _ _ h1 h2
      | exact absurd rfl h1
      | exact absurd rfl h2
      | exact (by decide : Ordering.lt ≠ Ordering.gt)

theorem cmpEntry_swap (a b : RawEntry) : cmpEntry b a = (cmpEntry a b).swap := by
  unfold cmpEntry
  cases entryIsDir a <;> cases entryIsDir b <;>
    first
      | rfl
      | exact cmpChars_swap _ _

theorem leEntry_total (a b : RawEntry) : (leEntry a b || leEntry b a) = true := by
  unfold leEntry
  rw [cmpEntry_swap a b]
  rcases cmpEntry a b <;> rfl

theorem leEntry_of_eq {a b : RawEntry} (h : cmpEntry a b = Ordering.eq) :
    leEntry a b = true := by
  unfold leEntry
  rw [h]
  rfl

/-- C4: for every set of directory entries and hidden-filter setting, the
scanned listing places every Directory entry before every File entry (an
entry whose metadata read failed counting as File), within each kind the
names appear in non-decreasing case-insensitive order, and the sort is
stable: any selection of entries with pairwise-equal sort keys keeps its
relative input order in the output. -/
theorem scan_sort_invariant (l : List RawEntry) (sh : Bool) (dup : List RawEntry)
    (hdup : dup.Pairwise (fun a b => cmpEntry a b = Ordering.eq))
    (hsub : dup.Sublist (visibleEntries sh l)) :
    (sortEntries (visibleEntries sh l)).Pairwise
      (fun a b => (entryIsDir b = true → entryIsDir a = true)
        ∧ (entryIsDir a = entryIsDir b →
            cmpChars (lowerName a.name) (lowerName b.name) ≠ Ordering.gt))
    ∧ dup.Sublist (sortEntries (visibleEntries sh l)) := by
  constructor
  · have hs := List.sorted_mergeSort leEntry_trans leEntry_total (visibleEntries sh l)
    refine hs.imp ?_
    intro a b hab
    have hab' : cmpEntry a b ≠ Ordering.gt := (bne_gt_iff (cmpEntry a b)).mp hab
    constructor
    · intro hb
      by_contra ha
      rw [Bool.not_eq_true] at ha
      have : cmpEntry a b = Ordering.gt := by
        unfold cmpEntry
        rw [ha, hb]
      exact hab' this
    · intro hk
      cases da : entryIsDir a with
      | false =>
        have : cmpEntry a b = cmpChars (lowerName a.name) (lowerName b.name) := by
          unfold cmpEntry
          rw [da, ← hk, da]
        rwa [this] at hab'
      | true =>
        have : cmpEntry a b = cmpChars (lowerName a.name) (lowerName b.name) := by
          unfold cmpEntry
          rw [da, ← hk, da]
        rwa [this] at hab'
  · exact List.sublist_mergeSort leEntry_trans leEntry_total
      (hdup.imp leEntry_of_eq) hsub

/-- Witness for C4: a concrete directory with a folder and two files whose
lowercased names collide (so the stability hypothesis bites). -/
theorem scan_sort_invariant_witness :
    ((sortEntries (visibleEntries false
        [⟨"b".data, some ⟨false⟩⟩, ⟨"A".data, some ⟨false⟩⟩, ⟨"a".data, none⟩])).Pairwise
      (fun a b => (entryIsDir b = true → entryIsDir a = true)
        ∧ (entryIsDir a = entryIsDir b →
            cmpChars (lowerName a.name) (lowerName b.name) ≠ Ordering.gt))
    ∧ List.Sublist [⟨"A".data, some ⟨false⟩⟩, (⟨"a".data, none⟩ : RawEntry)]
        (sortEntries (visibleEntries false
          [⟨"b".data, some ⟨false⟩⟩, ⟨"A".data, some ⟨false⟩⟩, ⟨"a".data, none⟩]))) :=
  scan_sort_invariant
    [⟨"b".data, some ⟨false⟩⟩, ⟨"A".data, some ⟨false⟩⟩, ⟨"a".data, none⟩] false
    [⟨"A".data, some ⟨false⟩⟩, ⟨"a".data, none⟩] (by decide) (by decide)

/-- C7: a scan with `show_hidden = false` never returns an entry whose name
starts with `.`, and every name it returns also appears in the scan of the
same directory contents with `show_hidden = true` (superset of names). -/
theorem hidden_filter_scan (fs : Fs) (s : DataraApp) (e : RawEntry)
    (hh : s.show_hidden = false)
    (he : e ∈ (read_dir fs s).entries) :
    startsWithDot e.name = false
    ∧ e.name ∈ ((read_dir fs { s with show_hidden := true }).entries.map RawEntry.name) := by
  unfold read_dir at he
  cases hfs : fs s.current_dir with
  | none =>
    rw [hfs] at he
    simp at he
  | some raw =>
    rw [hfs] at he
    simp only at he
    have hmem : e ∈ visibleEntries s.show_hidden raw :=
      ((List.mergeSort_perm _ _).mem_iff).mp he
    rw [hh] at hmem
    have h1 : startsWithDot e.name = false := by
      have := List.of_mem_filter hmem
      simpa using this
    refine ⟨h1, ?_⟩
    have hraw : e ∈ raw := List.mem_of_mem_filter hmem
    have h2 : e ∈ visibleEntries true raw := by
      unfold visibleEntries
      rw [List.mem_filter]
      exact ⟨hraw, by simp⟩
    have h3 : e ∈ sortEntries (visibleEntries true raw) :=
      ((List.mergeSort_perm _ _).mem_iff).mpr h2
    have hrw : (read_dir fs { s with show_hidden := true }).entries =
        sortEntries (visibleEntries true raw) := by
      unfold read_dir
      simp [hfs]
    rw [hrw]
    exact List.mem_map_of_mem RawEntry.name h3

/-- Witness for C7 at a directory containing a visible file and a dotfile. -/
theorem hidden_filter_scan_witness :
    startsWithDot (⟨"x".data, some ⟨false⟩⟩ : RawEntry).name = false
    ∧ (⟨"x".data, some ⟨false⟩⟩ : RawEntry).name ∈
        ((read_dir (fun _ => some [⟨"x".data, some ⟨false⟩⟩, ⟨".h".data, some ⟨false⟩⟩])
          { initApp [] with show_hidden := true }).entries.map RawEntry.name) :=
  hidden_filter_scan (fun _ => some [⟨"x".data, some ⟨false⟩⟩, ⟨".h".data, some ⟨false⟩⟩])
    (initApp []) ⟨"x".data, some ⟨false⟩⟩ rfl
    (by
      unfold read_dir initApp
      simp only []
      rw [show visibleEntries false [⟨"x".data, some ⟨false⟩⟩, ⟨".h".data, some ⟨false⟩⟩]
          = [⟨"x".data, some ⟨false⟩⟩] from by decide]
      rw [sortEntries, List.mergeSort_singleton]
      exact List.mem_singleton.mpr rfl)

theorem applyLine_entries (prs : List Char → Option ℚ) (s : DataraApp) (line : List Char) :
    (applyLine prs s line).entries = s.entries := by
  unfold applyLine
  rcases splitFirst '=' line with _ | ⟨k, v⟩
  · rfl
  · dsimp only
    repeat' split
    all_goals rfl

theorem foldl_applyLine_entries (prs : List Char → Option ℚ) :
    ∀ (lines : List (List Char)) (s : DataraApp),
      (lines.foldl (applyLine prs) s).entries = s.entries
  | [], _ => rfl
  | l :: ls, s => by
    rw [List.foldl_cons, foldl_applyLine_entries prs ls (applyLine prs s l),
      applyLine_entries]

theorem load_settings_entries (prs : List Char → Option ℚ) (file : Option (List Char))
    (s : DataraApp) : (load_settings prs file s).entries = s.entries := by
  unfold load_settings
  cases file
  · rfl
  · exact foldl_applyLine_entries prs _ s

/-- A directory `["d"]` whose sole child is a dotfile. -/
def dotFs : Fs := fun p => if p = ["d"] then some [⟨".hidden".data, some ⟨false⟩⟩] else none

/-- C6 counterexample: with a persisted config containing `show_hidden=true`
and a start directory containing a dot-entry, the session's FIRST listing is
empty - the flag is loaded (the state ends with `show_hidden = true`), but
only after `read_dir` already ran with the default `false`, so the dot-entry
is missing from the initial listing, contradicting the claim. -/
theorem startup_order_cex :
    (DataraApp.new dotFs (fun _ => none) (some "show_hidden=true\n".data) ["d"]).show_hidden = true
    ∧ (DataraApp.new dotFs (fun _ => none) (some "show_hidden=true\n".data) ["d"]).entries = []
    ∧ dotFs ["d"] = some [⟨".hidden".data, some ⟨false⟩⟩] := by
  refine ⟨rfl, ?_, rfl⟩
  unfold DataraApp.new
  rw [load_settings_entries]
  unfold read_dir
  rw [show dotFs (initApp ["d"]).current_dir = some [⟨".hidden".data, some ⟨false⟩⟩] from rfl]
  dsimp only
  rw [show visibleEntries (initApp ["d"]).show_hidden [⟨".hidden".data, some ⟨false⟩⟩] = []
      from by decide]
  exact List.mergeSort_nil

/-- C6 (amended): at startup `DataraApp::new` runs `read_dir` BEFORE
`load_settings`, so the first listing of the session is the one computed with
the default configuration (hidden files excluded): it never contains a
dot-prefixed name, whatever the persisted config says, and equals the listing
of a default-configured scan. -/
theorem startup_listing_ignores_config (fs : Fs) (prs : List Char → Option ℚ)
    (file : Option (List Char)) (start : PathBuf) (e : RawEntry)
    (he : e ∈ (DataraApp.new fs prs file start).entries) :
    startsWithDot e.name = false
    ∧ (DataraApp.new fs prs file start).entries = (read_dir fs (initApp start)).entries := by
  have hE : (DataraApp.new fs prs file start).entries =
      (read_dir fs (initApp start)).entries := by
    unfold DataraApp.new
    exact load_settings_entries prs file _
  refine ⟨?_, hE⟩
  rw [hE] at he
  unfold read_dir at he
  cases hfs : fs (initApp start).current_dir with
  | none =>
    rw [hfs] at he
    simp at he
  | some raw =>
    rw [hfs] at he
    simp only at he
    have hmem : e ∈ visibleEntries (initApp start).show_hidden raw :=
      ((List.mergeSort_perm _ _).mem_iff).mp he
    have := List.of_mem_filter hmem
    simpa [initApp] using this

/-- Witness for the amended C6 theorem. -/
theorem startup_listing_ignores_config_witness :
    startsWithDot (⟨"x".data, some ⟨false⟩⟩ : RawEntry).name = false
    ∧ (DataraApp.new (fun _ => some [⟨"x".data, some ⟨false⟩⟩]) (fun _ => none) none []).entries =
      (read_dir (fun _ => some [⟨"x".data, some ⟨false⟩⟩]) (initApp [])).entries :=
  startup_listing_ignores_config (fun _ => some [⟨"x".data, some ⟨false⟩⟩])
    (fun _ => none) none [] ⟨"x".data, some ⟨false⟩⟩
    (by
      show (⟨"x".data, some ⟨false⟩⟩ : RawEntry) ∈
        (load_settings (fun _ => none) none
          (read_dir (fun _ => some [⟨"x".data, some ⟨false⟩⟩]) (initApp []))).entries
      rw [load_settings_entries]
      unfold read_dir
      rw [show (fun (_ : PathBuf) => some [(⟨"x".data, some ⟨false⟩⟩ : RawEntry)])
          (initApp []).current_dir = some [⟨"x".data, some ⟨false⟩⟩] from rfl]
      dsimp only
      rw [show visibleEntries (initApp []).show_hidden [(⟨"x".data, some ⟨false⟩⟩ : RawEntry)]
          = [⟨"x".data, some ⟨false⟩⟩] from by decide]
      rw [sortEntries, List.mergeSort_singleton]
      exact List.mem_singleton.mpr rfl)

theorem floatRem_four_bounds (t : ℚ) : -4 < floatRem t 4 ∧ floatRem t 4 < 4 := by
  unfold floatRem ratTrunc
  split
  · constructor
    · have h1 : ((⌊t / 4⌋ : ℤ) : ℚ) ≤ t / 4 := Int.floor_le (t / 4)
      linarith
    · have h2 : t / 4 - 1 < ((⌊t / 4⌋ : ℤ) : ℚ) := Int.sub_one_lt_floor (t / 4)
      linarith
  · constructor
    · have h1 : ((⌈t / 4⌉ : ℤ) : ℚ) < t / 4 + 1 := Int.ceil_lt_add_one (t / 4)
      linarith
    · have h2 : t / 4 ≤ ((⌈t / 4⌉ : ℤ) : ℚ) := Int.le_ceil (t / 4)
      linarith

/-- The scroll window start index stays within `len - mc` for every time
value: the wrap-around slice arithmetic of the marquee never leaves the
string (exact-arithmetic model). -/
theorem scroll_start_bound (len mc : ℕ) (cw t : ℚ) (hcw : 0 < cw) (hmc : mc < len) :
    castUsize ((if floatRem t 4 / 4 < 1 / 2
        then floatRem t 4 / 4 * 2 * ((len : ℚ) * cw - (mc : ℚ) * cw)
        else (1 - (floatRem t 4 / 4 - 1 / 2) * 2) * ((len : ℚ) * cw - (mc : ℚ) * cw)) / cw)
      + mc ≤ len := by
  have hlen' : (mc : ℚ) < (len : ℚ) := by exact_mod_cast hmc
  have hRpos : (0:ℚ) < (len : ℚ) * cw - (mc : ℚ) * cw := by nlinarith
  obtain ⟨hb1, hb2⟩ := floatRem_four_bounds t
  have hnt1 : floatRem t 4 / 4 < 1 := by linarith
  have hoffR : (if floatRem t 4 / 4 < 1 / 2
      then floatRem t 4 / 4 * 2 * ((len : ℚ) * cw - (mc : ℚ) * cw)
      else (1 - (floatRem t 4 / 4 - 1 / 2) * 2) * ((len : ℚ) * cw - (mc : ℚ) * cw))
      ≤ (len : ℚ) * cw - (mc : ℚ) * cw := by
    split
    · nlinarith
    · nlinarith
  have hdivle : (if floatRem t 4 / 4 < 1 / 2
      then floatRem t 4 / 4 * 2 * ((len : ℚ) * cw - (mc : ℚ) * cw)
      else (1 - (floatRem t 4 / 4 - 1 / 2) * 2) * ((len : ℚ) * cw - (mc : ℚ) * cw)) / cw
      ≤ ((len : ℚ) * cw - (mc : ℚ) * cw) / cw :=
    (div_le_div_iff_of_pos_right hcw).mpr hoffR
  have hRcw : ((len : ℚ) * cw - (mc : ℚ) * cw) / cw = (Int.cast ((len : ℤ) - (mc : ℤ)) : ℚ) := by
    push_cast
    field_simp
    ring
  have hfl : ⌊(if floatRem t 4 / 4 < 1 / 2
      then floatRem t 4 / 4 * 2 * ((len : ℚ) * cw - (mc : ℚ) * cw)
      else (1 - (floatRem t 4 / 4 - 1 / 2) * 2) * ((len : ℚ) * cw - (mc : ℚ) * cw)) / cw⌋
      ≤ (len : ℤ) - (mc : ℤ) := by
    have h2 := hRcw ▸ hdivle
    have h3 := Int.floor_le_floor h2
    rwa [Int.floor_intCast] at h3
  unfold castUsize
  have h4 := Int.toNat_le_toNat hfl
  omega

/-- C9: for every text, width and time value (any focus state, positive font
size), the marquee layout never reads out of bounds: every slice index it
uses stays within the character count, so the embedded function (which
returns `none` exactly when a Rust slice would panic or read outside the
string) always returns a value.  In the wrap-around branch the result is, by
construction, the tail `chars[start_char..]` concatenated with the head
`chars[..remaining]` - a circular read of the two split ranges. -/
theorem marquee_no_oob (text : List Char) (w f t : ℚ) (i : ℕ) (hov : Bool)
    (hf : 0 < f) :
    (get_scrolling_text text w f i hov t).isSome = true := by
  have hcw : (0:ℚ) < f * (3 / 5) := by positivity
  unfold get_scrolling_text
  dsimp only
  split
  · rfl
  · next hfit =>
    push_neg at hfit
    split
    · next hhov =>
      have hbound := scroll_start_bound text.length
        (castUsize (w / (f * (3 / 5)))) (f * (3 / 5)) t hcw hfit
      rcases lt_or_ge (floatRem t 4 / 4) (1 / 2) with hnt | hnt
      · rw [if_pos hnt] at hbound ⊢
        rw [if_pos hbound]
        rfl
      · rw [if_neg (not_lt.mpr hnt)] at hbound ⊢
        rw [if_pos hbound]
        rfl
    · unfold truncate_text
      dsimp only
      split
      · rfl
      · split
        · rfl
        · next hcon =>
          exact absurd (le_of_lt (lt_of_le_of_lt (Nat.sub_le _ 3) hfit)) hcon

/-- Witness for C9 on an oversized focused text mid-cycle. -/
theorem marquee_no_oob_witness :
    (get_scrolling_text "hello world!".data 3 1 0 true 1).isSome = true :=
  marquee_no_oob "hello world!".data 3 1 1 0 true (by norm_num)

/-- C8 (amended): for every text, width `w`, POSITIVE font size `f`, time `t`
and focus flag, the marquee layout returns the text unchanged whenever
`char_count * f * 0.6 ≤ w`.  (For `f ≤ 0` the claim fails; see the
counterexample.) -/
theorem marquee_fit_passthrough (text : List Char) (w f t : ℚ) (i : ℕ) (hov : Bool)
    (hf : 0 < f) (hfit : (text.length : ℚ) * f * (3 / 5) ≤ w) :
    get_scrolling_text text w f i hov t = some (text, 0) := by
  have hcw : (0:ℚ) < f * (3 / 5) := by positivity
  have hle : (text.length : ℚ) ≤ w / (f * (3 / 5)) := by
    rw [le_div_iff hcw]
    nlinarith
  have hmc : text.length ≤ castUsize (w / (f * (3 / 5))) := by
    unfold castUsize
    have h1 : (text.length : ℤ) ≤ ⌊w / (f * (3 / 5))⌋ := by
      rw [Int.le_floor]
      exact_mod_cast hle
    have h2 := Int.toNat_le_toNat h1
    simpa using h2
  unfold get_scrolling_text
  dsimp only
  rw [if_pos hmc]

/-- Witness for the amended C8 theorem. -/
theorem marquee_fit_passthrough_witness :
    get_scrolling_text "ab".data 5 1 0 true 7 = some ("ab".data, 0) :=
  marquee_fit_passthrough "ab".data 5 1 7 0 true (by norm_num)
    (by
      rw [show "ab".data.length = 2 from rfl]
      norm_num)

/-- C8 counterexample: at font size `-1` the fit condition
`char_count * f * 0.6 ≤ w` holds (the product is negative), yet the layout
truncates `"ab"` to `"..."` instead of returning it unchanged - Rust's
float-to-usize cast saturates the negative `max_width / char_width` to 0.
So the claim is false without a positivity assumption on the font size. -/
theorem marquee_fit_passthrough_cex :
    (("ab".data.length : ℚ) * (-1) * (3 / 5) ≤ 5)
    ∧ get_scrolling_text "ab".data 5 (-1) 0 false 0 = some ("...".data, 0)
    ∧ "...".data ≠ "ab".data := by
  refine ⟨?_, ?_, by decide⟩
  · rw [show "ab".data.length = 2 from rfl]
    norm_num
  · have h0 : castUsize ((5:ℚ) / ((-1) * (3 / 5))) = 0 := by
      unfold castUsize
      rw [show (5:ℚ) / ((-1) * (3 / 5)) = -25 / 3 by norm_num]
      rw [show ⌊(-25 / 3 : ℚ)⌋ = -9 by norm_num]
      rfl
    unfold get_scrolling_text truncate_text
    dsimp only
    rw [h0]
    norm_num [show "ab".data.length = 2 from rfl]

theorem splitOnChar_append (sep : Char) (a rest : List Char) (h : sep ∉ a) :
    splitOnChar sep (a ++ sep :: rest) = a :: splitOnChar sep rest := by
  induction a with
  | nil =>
    show (if sep = sep then [] :: splitOnChar sep rest
      else match splitOnChar sep rest with
        | [] => [[sep]]
        | cur :: others => (sep :: cur) :: others) = [] :: splitOnChar sep rest
    rw [if_pos rfl]
  | cons c a' ih =>
    have hc : ¬(c = sep) := fun hh => h (hh ▸ List.mem_cons_self c a')
    have h' : sep ∉ a' := fun hh => h (List.mem_cons_of_mem c hh)
    show (if c = sep then [] :: splitOnChar sep (a' ++ sep :: rest)
      else match splitOnChar sep (a' ++ sep :: rest) with
        | [] => [[c]]
        | cur :: others => (c :: cur) :: others) = (c :: a') :: splitOnChar sep rest
    rw [if_neg hc, ih h']

theorem splitFirst_append (sep : Char) (a v : List Char) (h : sep ∉ a) :
    splitFirst sep (a ++ sep :: v) = some (a, v) := by
  induction a with
  | nil =>
    show (if sep = sep then some ([], v)
      else (splitFirst sep v).map (fun p => (sep :: p.1, p.2))) = some ([], v)
    rw [if_pos rfl]
  | cons c a' ih =>
    have hc : ¬(c = sep) := fun hh => h (hh ▸ List.mem_cons_self c a')
    have h' : sep ∉ a' := fun hh => h (List.mem_cons_of_mem c hh)
    show (if c = sep then some ([], a' ++ sep :: v)
      else (splitFirst sep (a' ++ sep :: v)).map (fun p => (c :: p.1, p.2))) = some (c :: a', v)
    rw [if_neg hc, ih h']
    rfl

/-- A settings line `key ++ "=" ++ value` followed by a newline and the rest
of the file splits off as one line, provided neither key nor value contains a
newline. -/
theorem splitOnChar_line (key v rest : List Char) (hk : '\n' ∉ key) (hv : '\n' ∉ v) :
    splitOnChar '\n' ((key ++ '=' :: v) ++ '\n' :: rest) =
      (key ++ '=' :: v) :: splitOnChar '\n' rest := by
  refine splitOnChar_append '\n' _ rest ?_
  intro hmem
  rcases List.mem_append.mp hmem with hin | hin
  · exact hk hin
  · rcases List.mem_cons.mp hin with hin | hin
    · exact absurd hin (by decide)
    · exact hv hin

theorem applyLine_nil (prs : List Char → Option ℚ) (t : DataraApp) :
    applyLine prs t [] = t :=
  rfl

theorem load_settings_some (prs : List Char → Option ℚ) (c : List Char) (t : DataraApp) :
    load_settings prs (some c) t = (splitOnChar '\n' c).foldl (applyLine prs) t :=
  rfl

theorem applyLine_ui_scale (prs : List Char → Option ℚ) (t : DataraApp) (v : List Char) :
    applyLine prs t ("ui_scale".data ++ '=' :: v) =
      match prs v with
      | some x => { t with ui_scale := x }
      | none => t := by
  unfold applyLine
  rw [splitFirst_append '=' "ui_scale".data v (by decide)]
  dsimp only
  rw [if_pos rfl]

theorem applyLine_max_items (prs : List Char → Option ℚ) (t : DataraApp) (v : List Char) :
    applyLine prs t ("max_items_per_row".data ++ '=' :: v) =
      match parseI32 v with
      | some x => { t with max_items_per_row := min 5 (max 2 x) }
      | none => t := by
  unfold applyLine
  rw [splitFirst_append '=' "max_items_per_row".data v (by decide)]
  dsimp only
  rw [if_neg (by decide), if_pos rfl]

theorem applyLine_show_scanlines (prs : List Char → Option ℚ) (t : DataraApp) (v : List Char) :
    applyLine prs t ("show_scanlines".data ++ '=' :: v) =
      match parseBool v with
      | some x => { t with show_scanlines := x }
      | none => t := by
  unfold applyLine
  rw [splitFirst_append '=' "show_scanlines".data v (by decide)]
  dsimp only
  rw [if_neg (by decide), if_neg (by decide), if_pos rfl]

theorem applyLine_show_hidden (prs : List Char → Option ℚ) (t : DataraApp) (v : List Char) :
    applyLine prs t ("show_hidden".data ++ '=' :: v) =
      match parseBool v with
      | some x => { t with show_hidden := x }
      | none => t := by
  unfold applyLine
  rw [splitFirst_append '=' "show_hidden".data v (by decide)]
  dsimp only
  rw [if_neg (by decide), if_neg (by decide), if_neg (by decide), if_pos rfl]

theorem applyLine_h_spacing (prs : List Char → Option ℚ) (t : DataraApp) (v : List Char) :
    applyLine prs t ("horizontal_spacing".data ++ '=' :: v) =
      match prs v with
      | some x => { t with horizontal_spacing := x }
      | none => t := by
  unfold applyLine
  rw [splitFirst_append '=' "horizontal_spacing".data v (by decide)]
  dsimp only
  rw [if_neg (by decide), if_neg (by decide), if_neg (by decide), if_neg (by decide),
    if_pos rfl]

theorem applyLine_v_spacing (prs : List Char → Option ℚ) (t : DataraApp) (v : List Char) :
    applyLine prs t ("vertical_spacing".data ++ '=' :: v) =
      match prs v with
      | some x => { t with vertical_spacing := x }
      | none => t := by
  unfold applyLine
  rw [splitFirst_append '=' "vertical_spacing".data v (by decide)]
  dsimp only
  rw [if_neg (by decide), if_neg (by decide), if_neg (by decide), if_neg (by decide),
    if_neg (by decide), if_pos rfl]

theorem applyLine_ui_scale' (prs : List Char → Option ℚ) (t : DataraApp) (v : List Char)
    (x : ℚ) (hv : prs v = some x) :
    applyLine prs t ("ui_scale".data ++ '=' :: v) = { t with ui_scale := x } := by
  rw [applyLine_ui_scale, hv]

theorem applyLine_max_items' (prs : List Char → Option ℚ) (t : DataraApp) (v : List Char)
    (x : ℤ) (hv : parseI32 v = some x) :
    applyLine prs t ("max_items_per_row".data ++ '=' :: v) =
      { t with max_items_per_row := min 5 (max 2 x) } := by
  rw [applyLine_max_items, hv]

theorem applyLine_show_scanlines' (prs : List Char → Option ℚ) (t : DataraApp) (v : List Char)
    (x : Bool) (hv : parseBool v = some x) :
    applyLine prs t ("show_scanlines".data ++ '=' :: v) = { t with show_scanlines := x } := by
  rw [applyLine_show_scanlines, hv]

theorem applyLine_show_hidden' (prs : List Char → Option ℚ) (t : DataraApp) (v : List Char)
    (x : Bool) (hv : parseBool v = some x) :
    applyLine prs t ("show_hidden".data ++ '=' :: v) = { t with show_hidden := x } := by
  rw [applyLine_show_hidden, hv]

theorem applyLine_h_spacing' (prs : List Char → Option ℚ) (t : DataraApp) (v : List Char)
    (x : ℚ) (hv : prs v = some x) :
    applyLine prs t ("horizontal_spacing".data ++ '=' :: v) =
      { t with horizontal_spacing := x } := by
  rw [applyLine_h_spacing, hv]

theorem applyLine_v_spacing' (prs : List Char → Option ℚ) (t : DataraApp) (v : List Char)
    (x : ℚ) (hv : prs v = some x) :
    applyLine prs t ("vertical_spacing".data ++ '=' :: v) =
      { t with vertical_spacing := x } := by
  rw [applyLine_v_spacing, hv]

/-- C5: saving a valid `DisplayConfig` (`max_items_per_row` within `2..=5`)
and loading it back in a fresh session restores the config field-for-field,
given only that the external float codec (`Display`/`parse::<f32>` of Rust,
abstracted as `fmt`/`prs`) round-trips the three float values actually
written and formats them without a newline.  Equality is exact, hence in
particular within any epsilon tolerance. -/
theorem settings_roundtrip (fmt : ℚ → List Char) (prs : List Char → Option ℚ)
    (s t : DataraApp)
    (h1 : prs (fmt s.ui_scale) = some s.ui_scale)
    (h2 : prs (fmt s.horizontal_spacing) = some s.horizontal_spacing)
    (h3 : prs (fmt s.vertical_spacing) = some s.vertical_spacing)
    (n1 : '\n' ∉ fmt s.ui_scale)
    (n2 : '\n' ∉ fmt s.horizontal_spacing)
    (n3 : '\n' ∉ fmt s.vertical_spacing)
    (hm2 : 2 ≤ s.max_items_per_row) (hm5 : s.max_items_per_row ≤ 5) :
    configOf (load_settings prs (some (save_settings fmt s)) t) = configOf s := by
  have hbT : ∀ b : Bool, parseBool (boolChars b) = some b := by decide
  have hnlB : ∀ b : Bool, '\n' ∉ boolChars b := by decide
  have h4 : s.max_items_per_row = 2 ∨ s.max_items_per_row = 3 ∨
      s.max_items_per_row = 4 ∨ s.max_items_per_row = 5 := by omega
  have hmint : parseI32 (intChars s.max_items_per_row) = some s.max_items_per_row := by
    rcases h4 with h | h | h | h <;> rw [h] <;> decide
  have hmnl : '\n' ∉ intChars s.max_items_per_row := by
    rcases h4 with h | h | h | h <;> rw [h] <;> decide
  have hclamp : min 5 (max 2 s.max_items_per_row) = s.max_items_per_row := by omega
  rw [load_settings_some]
  unfold save_settings
  rw [splitOnChar_line _ _ _ (by decide) n1,
    splitOnChar_line _ _ _ (by decide) hmnl,
    splitOnChar_line _ _ _ (by decide) (hnlB s.show_scanlines),
    splitOnChar_line _ _ _ (by decide) (hnlB s.show_hidden),
    splitOnChar_line _ _ _ (by decide) n2,
    splitOnChar_line _ _ _ (by decide) n3,
    show splitOnChar '\n' ([] : List Char) = [[]] from rfl]
  rw [List.foldl_cons, applyLine_ui_scale' prs t _ _ h1]
  rw [List.foldl_cons, applyLine_max_items' prs _ _ _ hmint, hclamp]
  rw [List.foldl_cons, applyLine_show_scanlines' prs _ _ _ (hbT s.show_scanlines)]
  rw [List.foldl_cons, applyLine_show_hidden' prs _ _ _ (hbT s.show_hidden)]
  rw [List.foldl_cons, applyLine_h_spacing' prs _ _ _ h2]
  rw [List.foldl_cons, applyLine_v_spacing' prs _ _ _ h3]
  rw [List.foldl_cons, applyLine_nil, List.foldl_nil]
  rfl

/-- Witness for C5 with a concrete config and a trivially round-tripping
float codec. -/
theorem settings_roundtrip_witness :
    configOf (load_settings (fun _ => some 1)
      (some (save_settings (fun _ => "1".data)
        { initApp ["w"] with ui_scale := 1, horizontal_spacing := 1, vertical_spacing := 1 }))
      (initApp [])) =
    configOf { initApp ["w"] with ui_scale := 1, horizontal_spacing := 1, vertical_spacing := 1 } :=
  settings_roundtrip (fun _ => "1".data) (fun _ => some 1)
    { initApp ["w"] with ui_scale := 1, horizontal_spacing := 1, vertical_spacing := 1 }
    (initApp []) rfl rfl rfl (by decide) (by decide) (by decide) (by decide) (by decide)
